import Mathlib

/-!
Shallow embedding of the `myplace_reg` repository.

The repository has two source files:
* `src/compute_place.py` — batch mode: `sort_key`, `norm`, `compute_place`;
* `src/app.py` — HTTP mode: `_sort_key`, a local `norm`, `_compute_place`,
  and the cached `_fetch_data`.

Modelling decisions (all noted where they matter):
* a JSON row becomes `Row`, every field optional (`none` = key absent);
* Python floats are modelled by `Rat`; the literal `1e-5` is `1/100000`;
* Python string comparison is code-point lexicographic (`chars_le`);
* Python `str.lower` is modelled on the code points this development uses
  (ASCII letters and the Cyrillic block);
* Python `list.sort(key=...)` is a stable sort by the key tuple; any stable
  sort w.r.t. the same total preorder produces the same list, so it is
  modelled by `List.insertionSort` over the key order;
* rational comparisons inside the algorithm are written by cross
  multiplication on `num`/`den` so that they evaluate by `decide`;
  `rat_lt_iff` and `rat_abs_sub_gt_iff` prove them equal to the intended
  order relations on `ℚ`;
* the exact-rational rendering of the float comparison agrees with IEEE
  double arithmetic except in a thin band around the 1e-5 threshold
  (the double nearest to 1e-5 is slightly above the exact decimal);
  every concrete score in this file is therefore chosen so that each
  epsilon comparison it takes part in has a margin of at least 2e-6
  from the threshold, where doubles and exact rationals agree.
-/

/-- A competitor record: one JSON object from the feed.  A field is `none`
when the corresponding key is absent from the JSON object. -/
structure Row where
  name : Option String := none
  form : Option Int := none
  sumRank : Option Rat := none
  disqual : Option Bool := none
  automatic : Option Bool := none
deriving DecidableEq

/-- Python whitespace test used by `str.strip()` and `str.split()`
(space, tab, newline, carriage return, vertical tab, form feed). -/
def py_is_space (c : Char) : Bool :=
  c.toNat = 32 || c.toNat = 9 || c.toNat = 10 || c.toNat = 13 ||
    c.toNat = 11 || c.toNat = 12

/-- Python `str.lower` on one character, restricted to the code points that
occur in this development: ASCII `A`–`Z`, Cyrillic `А`–`Я` (U+0410–U+042F)
and `Ё` (U+0401).  All other characters are unchanged, exactly as in
Python for these ranges. -/
def py_lower_char (c : Char) : Char :=
  if 65 ≤ c.toNat ∧ c.toNat ≤ 90 then Char.ofNat (c.toNat + 32)
  else if 0x410 ≤ c.toNat ∧ c.toNat ≤ 0x42F then Char.ofNat (c.toNat + 32)
  else if c.toNat = 0x401 then Char.ofNat 0x451
  else c

/-- Python `str.strip()` on a character list: drop leading and trailing
whitespace. -/
def py_strip (l : List Char) : List Char :=
  ((l.dropWhile py_is_space).reverse.dropWhile py_is_space).reverse

/-- Accumulator worker for `py_split`: `acc` holds the current word,
reversed. -/
def py_split_aux : List Char → List Char → List (List Char)
  | [], acc => if acc = [] then [] else [acc.reverse]
  | c :: cs, acc =>
    if py_is_space c then
      if acc = [] then py_split_aux cs []
      else acc.reverse :: py_split_aux cs []
    else py_split_aux cs (c :: acc)

/-- Python `str.split()` with no argument: the maximal runs of
non-whitespace characters, in order; empty pieces never occur. -/
def py_split (l : List Char) : List (List Char) :=
  py_split_aux l []

/-- Python `str.startswith`: `starts_with l p` is true when `p` is an
initial segment of `l`. -/
def starts_with : List Char → List Char → Bool
  | _, [] => true
  | [], _ :: _ => false
  | a :: as, b :: bs => a == b && starts_with as bs

/-- Python `<` on rationals, by cross multiplication on the reduced
fraction (denominators are positive), so that it evaluates by `decide`.
`rat_lt_iff` proves it equal to `· < ·` on `ℚ`. -/
def rat_lt (a b : Rat) : Bool :=
  decide (a.num * (b.den : Int) < b.num * (a.den : Int))

/-- Python `abs(a - b) > e` on rationals, by cross multiplication, so that
it evaluates by `decide`.  `rat_abs_sub_gt_iff` proves it equal to
`e < |a - b|` on `ℚ`. -/
def rat_abs_sub_gt (a b e : Rat) : Bool :=
  decide (e.num * ((a.den : Int) * (b.den : Int)) <
    ((a.num * (b.den : Int) - b.num * (a.den : Int)).natAbs : Int) * (e.den : Int))

/-- The literal `1e-5` from both copies of the walk. -/
def eps : Rat := ⟨1, 100000, by norm_num, by norm_num⟩

/-- The rational `100.000016` (reduced fraction `6250001/62500`).  The
IEEE double for this literal differs from the exact decimal by under
`2^-47`, far below the `8e-6` margins this value is used with, so every
epsilon comparison made on it agrees between the double and the exact
rational. -/
def q100_000016 : Rat := ⟨6250001, 62500, by norm_num, by norm_num⟩

/-- The rational `100.000008` (reduced fraction `12500001/125000`); the
same robustness remark as for `q100_000016` applies. -/
def q100_000008 : Rat := ⟨12500001, 125000, by norm_num, by norm_num⟩

/-- Python `<=` on strings: code-point lexicographic order on the
character lists. -/
def chars_le : List Char → List Char → Bool
  | [], _ => true
  | _ :: _, [] => false
  | a :: as, b :: bs =>
    if a.toNat < b.toNat then true
    else if b.toNat < a.toNat then false
    else chars_le as bs

/-- Python `<=` on strings. -/
def str_le (a b : String) : Bool :=
  chars_le a.data b.data

/-- One step of Python tuple comparison: strictly less on the first
component decides; otherwise compare the rest. -/
def lex_le {α β : Type} (ltc : α → α → Bool) (le2 : β → β → Bool)
    (a b : α × β) : Bool :=
  if ltc a.1 b.1 then true
  else if ltc b.1 a.1 then false
  else le2 a.2 b.2

/-- Python `<` on integers, as a Bool. -/
def int_lt (x y : Int) : Bool :=
  decide (x < y)

/-- The sort-key tuple type: `(-sumRank, int(disqual), int(automatic),
form, name)`. -/
abbrev SortKey : Type := Rat × Int × Int × Int × String

/-- Python `<=` on the sort-key tuples (tuple comparison is
lexicographic). -/
def key_le : SortKey → SortKey → Bool :=
  lex_le rat_lt (lex_le int_lt (lex_le int_lt (lex_le int_lt str_le)))

namespace CP

/-- `sort_key` from `src/compute_place.py`:
`(-sum_rank, int(disqual), int(automatic), form, name)` with the `get`
defaults `sumRank=0`, `disqual=False`, `automatic=False`, `form=-1`,
`name=""`. -/
def sort_key (r : Row) : SortKey :=
  (-(r.sumRank.getD 0),
   if r.disqual.getD false then 1 else 0,
   if r.automatic.getD false then 1 else 0,
   r.form.getD (-1),
   r.name.getD "")

/-- `norm` from `src/compute_place.py`:
`" ".join(str(s).strip().lower().split())`. -/
def norm (s : String) : String :=
  String.mk (List.intercalate ([Char.ofNat 32])
    (py_split ((py_strip s.data).map py_lower_char)))

/-- The name test of the walk in `compute_place`:
`row_name == target or row_name.startswith(target + " ")`.
Both arguments are already normalized, as at the call site. -/
def name_hit (target row_name : String) : Bool :=
  row_name == target || starts_with row_name.data (target ++ " ").data

/-- The `for` loop of `compute_place` (src/compute_place.py lines 46–61),
with the mutable state `non_disqual_i`, `last_non_disqual_sum_rank`,
`last_place` passed explicitly. -/
def place_loop (target : String) :
    List Row → Nat → Rat → Option Nat → Option Nat
  | [], _, _, _ => none
  | row :: rest, non_disqual_i, last_sr, last_place =>
    let sum_rank := row.sumRank.getD 0
    let disqual := row.disqual.getD false
    let st :=
      if rat_abs_sub_gt sum_rank last_sr eps && !disqual then
        (sum_rank, some (non_disqual_i + 1))
      else (last_sr, last_place)
    if name_hit target (norm (row.name.getD "")) then st.2
    else place_loop target rest
      (if disqual then non_disqual_i else non_disqual_i + 1) st.1 st.2

/-- The sort order used by `filtered.sort(key=sort_key)`. -/
def row_le (a b : Row) : Prop :=
  key_le (sort_key a) (sort_key b) = true

instance row_le_dec : DecidableRel row_le :=
  fun a b => inferInstanceAs (Decidable (key_le (sort_key a) (sort_key b) = true))

/-- `compute_place` from `src/compute_place.py`: filter to the target
form, stable-sort by `sort_key`, then walk.  The Python return type
`int | None` becomes `Option Nat`; a `None` returned on a name match and
the `None` of the final fall-through are the same value, as in Python. -/
def compute_place (rows : List Row) (name : String) (form : Int) : Option Nat :=
  let filtered := rows.filter (fun r => r.form == some form)
  let sorted := List.insertionSort row_le filtered
  place_loop (norm name) sorted 0 (-1) none

end CP

namespace App

/-- `_sort_key` from `src/app.py`: `(-float(sum_rank), int(disqual),
int(automatic), int(form), str(name))` with the same `get` defaults. -/
def sort_key (r : Row) : SortKey :=
  (-(r.sumRank.getD 0),
   if r.disqual.getD false then 1 else 0,
   if r.automatic.getD false then 1 else 0,
   r.form.getD (-1),
   r.name.getD "")

/-- The local `norm` defined inside `_compute_place` in `src/app.py`:
`" ".join(str(s).strip().lower().split())`. -/
def norm (s : String) : String :=
  String.mk (List.intercalate ([Char.ofNat 32])
    (py_split ((py_strip s.data).map py_lower_char)))

/-- The name test of the walk in `_compute_place`. -/
def name_hit (target row_name : String) : Bool :=
  row_name == target || starts_with row_name.data (target ++ " ").data

/-- The `for` loop of `_compute_place` (src/app.py lines 123–140). -/
def place_loop (target : String) :
    List Row → Nat → Rat → Option Nat → Option Nat
  | [], _, _, _ => none
  | row :: rest, non_disqual_i, last_sr, last_place =>
    let sum_rank := row.sumRank.getD 0
    let disqual := row.disqual.getD false
    let st :=
      if rat_abs_sub_gt sum_rank last_sr eps && !disqual then
        (sum_rank, some (non_disqual_i + 1))
      else (last_sr, last_place)
    if name_hit target (norm (row.name.getD "")) then st.2
    else place_loop target rest
      (if disqual then non_disqual_i else non_disqual_i + 1) st.1 st.2

/-- The sort order used by `filtered.sort(key=_sort_key)`. -/
def row_le (a b : Row) : Prop :=
  key_le (sort_key a) (sort_key b) = true

instance row_le_dec : DecidableRel row_le :=
  fun a b => inferInstanceAs (Decidable (key_le (sort_key a) (sort_key b) = true))

/-- `_compute_place` from `src/app.py` lines 109–140. -/
def compute_place (rows : List Row) (name : String) (form : Int) : Option Nat :=
  let filtered := rows.filter (fun r => r.form == some form)
  let sorted := List.insertionSort row_le filtered
  place_loop (norm name) sorted 0 (-1) none

/-- The fetch cache of `src/app.py`: `fetched_at` (a `time.time()` value,
modelled by `Rat`) and the last successfully fetched list. -/
structure Cache where
  fetched_at : Rat := 0
  data : Option (List Row) := none
deriving DecidableEq

/-- Outcome of the network part of `_fetch_data`: `requests.get` plus
`raise_for_status` may fail, `r.json()` may produce a non-list, or a list
of rows arrives. -/
inductive FetchOutcome where
  | net_error : FetchOutcome
  | non_list : FetchOutcome
  | payload : List Row → FetchOutcome
deriving DecidableEq

/-- The fresh-fetch tail of `_fetch_data` (src/app.py lines 88–95): on
any failure the error propagates and the cache is untouched; on success
the cache is replaced wholesale by `Cache(fetched_at=now, data=data)`. -/
def fetch_fresh (c : Cache) (now : Rat) (outcome : FetchOutcome) :
    Except String (List Row) × Cache :=
  match outcome with
  | .net_error => (Except.error "requests failure", c)
  | .non_list => (Except.error "Unexpected API response: expected a JSON list", c)
  | .payload rows => (Except.ok rows, { fetched_at := now, data := some rows })

/-- `_fetch_data` from `src/app.py` lines 82–95, with the global cache,
the clock and the network outcome passed explicitly: serve from cache
when `cache.data is not None and (now - cache.fetched_at) < ttl`,
otherwise fetch. -/
def fetch_data (c : Cache) (now ttl : Rat) (outcome : FetchOutcome) :
    Except String (List Row) × Cache :=
  match c.data with
  | some d =>
    if rat_lt (now - c.fetched_at) ttl then (Except.ok d, c)
    else fetch_fresh c now outcome
  | none => fetch_fresh c now outcome

end App

/-! ### Bridges from the executable comparisons to the order on `ℚ` -/

/-- The cross-multiplied `rat_lt` is the strict order on `ℚ`. -/
theorem rat_lt_iff (a b : Rat) : rat_lt a b = true ↔ a < b := by
  simp [rat_lt, Rat.lt_def]

/-- The cross-multiplied `rat_abs_sub_gt` is `abs (a - b) > e` on `ℚ`. -/
theorem rat_abs_sub_gt_iff (a b e : Rat) :
    rat_abs_sub_gt a b e = true ↔ e < |a - b| := by
  have hda : (0:ℚ) < ((a.den : ℤ) : ℚ) := by exact_mod_cast a.den_pos
  have hdb : (0:ℚ) < ((b.den : ℤ) : ℚ) := by exact_mod_cast b.den_pos
  have hde : (0:ℚ) < ((e.den : ℤ) : ℚ) := by exact_mod_cast e.den_pos
  have hnd : ∀ q : Rat, ((q.num:ℚ))/((q.den:ℤ):ℚ) = q := by
    intro q
    push_cast
    exact Rat.num_div_den q
  have h1 : ((a.num:ℚ))/((a.den:ℤ):ℚ) - ((b.num:ℚ))/((b.den:ℤ):ℚ)
      = ((a.num:ℚ) * ((b.den:ℤ):ℚ) - ((a.den:ℤ):ℚ) * (b.num:ℚ))
        / (((a.den:ℤ):ℚ) * ((b.den:ℤ):ℚ)) :=
    div_sub_div _ _ (ne_of_gt hda) (ne_of_gt hdb)
  rw [hnd, hnd] at h1
  have habs : |a - b|
      = |(a.num:ℚ) * ((b.den:ℤ):ℚ) - ((a.den:ℤ):ℚ) * (b.num:ℚ)|
        / (((a.den:ℤ):ℚ) * ((b.den:ℤ):ℚ)) := by
    rw [h1, abs_div, abs_of_pos (mul_pos hda hdb)]
  have hcast : |(a.num:ℚ) * ((b.den:ℤ):ℚ) - ((a.den:ℤ):ℚ) * (b.num:ℚ)|
      = ((((a.num * (b.den:ℤ) - b.num * (a.den:ℤ)).natAbs : ℤ)) : ℚ) := by
    rw [show (a.num:ℚ) * ((b.den:ℤ):ℚ) - ((a.den:ℤ):ℚ) * (b.num:ℚ)
        = (((a.num * (b.den:ℤ) - b.num * (a.den:ℤ)) : ℤ) : ℚ) by push_cast; ring]
    rw [← Int.cast_abs, Int.abs_eq_natAbs]
  simp only [rat_abs_sub_gt, decide_eq_true_eq]
  rw [habs, lt_div_iff₀ (mul_pos hda hdb)]
  conv_rhs => rw [show e = ((e.num:ℚ))/((e.den:ℤ):ℚ) from (hnd e).symm]
  rw [div_mul_eq_mul_div, div_lt_iff₀ hde, hcast]
  constructor
  · intro h
    calc ((e.num:ℚ)) * (((a.den:ℤ):ℚ) * ((b.den:ℤ):ℚ))
        = (((e.num * ((a.den:ℤ) * (b.den:ℤ))) : ℤ) : ℚ) := by push_cast; ring
      _ < (((((a.num * (b.den:ℤ) - b.num * (a.den:ℤ)).natAbs : ℤ)) * (e.den:ℤ) : ℤ) : ℚ) := by
          exact_mod_cast h
      _ = ((((a.num * (b.den:ℤ) - b.num * (a.den:ℤ)).natAbs : ℤ)) : ℚ) * ((e.den:ℤ):ℚ) := by
          push_cast; ring
  · intro h
    have h2 : (((e.num * ((a.den:ℤ) * (b.den:ℤ))) : ℤ) : ℚ)
        < (((((a.num * (b.den:ℤ) - b.num * (a.den:ℤ)).natAbs : ℤ)) * (e.den:ℤ) : ℤ) : ℚ) := by
      calc (((e.num * ((a.den:ℤ) * (b.den:ℤ))) : ℤ) : ℚ)
          = ((e.num:ℚ)) * (((a.den:ℤ):ℚ) * ((b.den:ℤ):ℚ)) := by push_cast; ring
        _ < ((((a.num * (b.den:ℤ) - b.num * (a.den:ℤ)).natAbs : ℤ)) : ℚ) * ((e.den:ℤ):ℚ) := h
        _ = (((((a.num * (b.den:ℤ) - b.num * (a.den:ℤ)).natAbs : ℤ)) * (e.den:ℤ) : ℤ) : ℚ) := by
            push_cast; ring
    exact_mod_cast h2

/-! ### Order properties of the sort-key comparison -/

/-- Totality of the code-point order on character lists. -/
theorem chars_le_total : ∀ xs ys, chars_le xs ys = true ∨ chars_le ys xs = true := by
  intro xs
  induction xs with
  | nil => intro ys; left; rfl
  | cons a as ih =>
    intro ys
    cases ys with
    | nil => right; rfl
    | cons b bs =>
      simp only [chars_le]
      rcases Nat.lt_trichotomy a.toNat b.toNat with h | h | h
      · left; rw [if_pos h]
      · rw [if_neg (by omega), if_neg (by omega), if_neg (by omega), if_neg (by omega)]
        exact ih bs
      · right; rw [if_pos h]

/-- Transitivity of the code-point order on character lists. -/
theorem chars_le_trans : ∀ xs ys zs, chars_le xs ys = true → chars_le ys zs = true →
    chars_le xs zs = true := by
  intro xs
  induction xs with
  | nil => intro ys zs _ _; rfl
  | cons a as ih =>
    intro ys zs h1 h2
    cases ys with
    | nil => simp [chars_le] at h1
    | cons b bs =>
      cases zs with
      | nil => simp [chars_le] at h2
      | cons c cs =>
        simp only [chars_le] at h1 h2 ⊢
        rcases Nat.lt_trichotomy a.toNat b.toNat with h | h | h
        · rcases Nat.lt_trichotomy b.toNat c.toNat with g | g | g
          · rw [if_pos (by omega)]
          · rw [if_pos (by omega)]
          · rw [if_neg (by omega), if_pos g] at h2; simp at h2
        · rw [if_neg (by omega), if_neg (by omega)] at h1
          rcases Nat.lt_trichotomy b.toNat c.toNat with g | g | g
          · rw [if_pos (by omega)]
          · rw [if_neg (by omega), if_neg (by omega)] at h2
            rw [if_neg (by omega), if_neg (by omega)]
            exact ih bs cs h1 h2
          · rw [if_neg (by omega), if_pos g] at h2; simp at h2
        · rw [if_neg (by omega), if_pos h] at h1; simp at h1

/-- Antisymmetry of the code-point order on character lists. -/
theorem chars_le_antisymm : ∀ xs ys, chars_le xs ys = true → chars_le ys xs = true →
    xs = ys := by
  intro xs
  induction xs with
  | nil =>
    intro ys _ h2
    cases ys with
    | nil => rfl
    | cons b bs => simp [chars_le] at h2
  | cons a as ih =>
    intro ys h1 h2
    cases ys with
    | nil => simp [chars_le] at h1
    | cons b bs =>
      simp only [chars_le] at h1 h2
      rcases Nat.lt_trichotomy a.toNat b.toNat with h | h | h
      · rw [if_neg (by omega), if_pos h] at h2; simp at h2
      · rw [if_neg (by omega), if_neg (by omega)] at h1 h2
        have hab : a = b := Char.ext (UInt32.ext h)
        rw [hab, ih bs h1 h2]
      · rw [if_neg (by omega), if_pos h] at h1; simp at h1

/-- Totality of `str_le`. -/
theorem str_le_total : ∀ a b : String, str_le a b = true ∨ str_le b a = true :=
  fun a b => chars_le_total a.data b.data

/-- Transitivity of `str_le`. -/
theorem str_le_trans : ∀ a b c : String, str_le a b = true → str_le b c = true →
    str_le a c = true :=
  fun a b c h1 h2 => chars_le_trans a.data b.data c.data h1 h2

/-- Antisymmetry of `str_le`. -/
theorem str_le_antisymm : ∀ a b : String, str_le a b = true → str_le b a = true →
    a = b :=
  fun _ _ h1 h2 => String.ext (chars_le_antisymm _ _ h1 h2)

/-- Totality of a lexicographic step, from totality of the tail order. -/
theorem lex_le_total {α β : Type} {ltc : α → α → Bool} {le2 : β → β → Bool}
    (htot : ∀ x y, le2 x y = true ∨ le2 y x = true) :
    ∀ a b : α × β, lex_le ltc le2 a b = true ∨ lex_le ltc le2 b a = true := by
  intro a b
  unfold lex_le
  cases h1 : ltc a.1 b.1 with
  | true => left; rw [if_pos rfl]
  | false =>
    cases h2 : ltc b.1 a.1 with
    | true => right; rw [if_pos rfl]
    | false =>
      rcases htot a.2 b.2 with h | h
      · left; rw [if_neg (by simp [h1]), if_neg (by simp [h2])]; exact h
      · right; rw [if_neg (by simp [h2]), if_neg (by simp [h1])]; exact h

/-- Transitivity of a lexicographic step, from the order properties of the
head comparison and transitivity of the tail order. -/
theorem lex_le_trans {α β : Type} {ltc : α → α → Bool} {le2 : β → β → Bool}
    (hltt : ∀ x y z, ltc x y = true → ltc y z = true → ltc x z = true)
    (hirr : ∀ x, ltc x x = false)
    (heq : ∀ x y, ltc x y = false → ltc y x = false → x = y)
    (h2t : ∀ x y z, le2 x y = true → le2 y z = true → le2 x z = true) :
    ∀ a b c : α × β, lex_le ltc le2 a b = true → lex_le ltc le2 b c = true →
    lex_le ltc le2 a c = true := by
  intro a b c h1 h2
  unfold lex_le at h1 h2 ⊢
  cases hab : ltc a.1 b.1 with
  | true =>
    cases hbc : ltc b.1 c.1 with
    | true => rw [if_pos (hltt _ _ _ hab hbc)]
    | false =>
      cases hcb : ltc c.1 b.1 with
      | true => rw [if_neg (by simp [hbc]), if_pos hcb] at h2; simp at h2
      | false =>
        have hb : b.1 = c.1 := heq _ _ hbc hcb
        rw [← hb, if_pos hab]
  | false =>
    cases hba : ltc b.1 a.1 with
    | true => rw [if_neg (by simp [hab]), if_pos hba] at h1; simp at h1
    | false =>
      have ha : a.1 = b.1 := heq _ _ hab hba
      rw [if_neg (by simp [hab]), if_neg (by simp [hba])] at h1
      cases hbc : ltc b.1 c.1 with
      | true => rw [ha, if_pos hbc]
      | false =>
        cases hcb : ltc c.1 b.1 with
        | true => rw [if_neg (by simp [hbc]), if_pos hcb] at h2; simp at h2
        | false =>
          have hb : b.1 = c.1 := heq _ _ hbc hcb
          rw [if_neg (by simp [hbc]), if_neg (by simp [hcb])] at h2
          rw [ha, hb, if_neg (by simp [hirr c.1]), if_neg (by simp [hirr c.1])]
          exact h2t _ _ _ h1 h2

/-- Antisymmetry of a lexicographic step. -/
theorem lex_le_antisymm {α β : Type} {ltc : α → α → Bool} {le2 : β → β → Bool}
    (hltt : ∀ x y z, ltc x y = true → ltc y z = true → ltc x z = true)
    (hirr : ∀ x, ltc x x = false)
    (heq : ∀ x y, ltc x y = false → ltc y x = false → x = y)
    (h2a : ∀ x y, le2 x y = true → le2 y x = true → x = y) :
    ∀ a b : α × β, lex_le ltc le2 a b = true → lex_le ltc le2 b a = true →
    a = b := by
  intro a b h1 h2
  unfold lex_le at h1 h2
  cases hab : ltc a.1 b.1 with
  | true =>
    cases hba : ltc b.1 a.1 with
    | true =>
      have := hltt _ _ _ hab hba
      rw [hirr a.1] at this
      simp at this
    | false => rw [if_neg (by simp [hba]), if_pos hab] at h2; simp at h2
  | false =>
    cases hba : ltc b.1 a.1 with
    | true => rw [if_neg (by simp [hab]), if_pos hba] at h1; simp at h1
    | false =>
      have ha : a.1 = b.1 := heq _ _ hab hba
      rw [if_neg (by simp [hab]), if_neg (by simp [hba])] at h1
      rw [if_neg (by simp [hba]), if_neg (by simp [hab])] at h2
      exact Prod.ext ha (h2a _ _ h1 h2)

/-- Transitivity of `int_lt`. -/
theorem int_lt_trans : ∀ x y z : Int, int_lt x y = true → int_lt y z = true →
    int_lt x z = true := by
  intro x y z h1 h2
  simp only [int_lt, decide_eq_true_eq] at h1 h2 ⊢
  omega

/-- Irreflexivity of `int_lt`. -/
theorem int_lt_irrefl : ∀ x : Int, int_lt x x = false := by
  intro x
  simp [int_lt]

/-- Two integers below each other in neither direction are equal. -/
theorem int_lt_eq : ∀ x y : Int, int_lt x y = false → int_lt y x = false → x = y := by
  intro x y h1 h2
  simp only [int_lt, decide_eq_false_iff_not, Int.not_lt] at h1 h2
  omega

/-- Transitivity of `rat_lt`. -/
theorem rat_lt_trans : ∀ x y z : Rat, rat_lt x y = true → rat_lt y z = true →
    rat_lt x z = true := by
  intro x y z h1 h2
  rw [rat_lt_iff] at h1 h2 ⊢
  exact lt_trans h1 h2

/-- Irreflexivity of `rat_lt`. -/
theorem rat_lt_irrefl : ∀ x : Rat, rat_lt x x = false := by
  intro x
  rw [← Bool.not_eq_true, rat_lt_iff]
  exact lt_irrefl x

/-- Two rationals below each other in neither direction are equal. -/
theorem rat_lt_eq : ∀ x y : Rat, rat_lt x y = false → rat_lt y x = false → x = y := by
  intro x y h1 h2
  rw [← Bool.not_eq_true, rat_lt_iff] at h1 h2
  exact le_antisymm (not_lt.mp h2) (not_lt.mp h1)

/-- Totality of the sort-key order. -/
theorem key_le_total : ∀ a b : SortKey, key_le a b = true ∨ key_le b a = true :=
  lex_le_total (lex_le_total (lex_le_total (lex_le_total str_le_total)))

/-- Transitivity of the sort-key order. -/
theorem key_le_trans : ∀ a b c : SortKey, key_le a b = true → key_le b c = true →
    key_le a c = true :=
  lex_le_trans rat_lt_trans rat_lt_irrefl rat_lt_eq
    (lex_le_trans int_lt_trans int_lt_irrefl int_lt_eq
      (lex_le_trans int_lt_trans int_lt_irrefl int_lt_eq
        (lex_le_trans int_lt_trans int_lt_irrefl int_lt_eq str_le_trans)))

/-- Antisymmetry of the sort-key order. -/
theorem key_le_antisymm : ∀ a b : SortKey, key_le a b = true → key_le b a = true →
    a = b :=
  lex_le_antisymm rat_lt_trans rat_lt_irrefl rat_lt_eq
    (lex_le_antisymm int_lt_trans int_lt_irrefl int_lt_eq
      (lex_le_antisymm int_lt_trans int_lt_irrefl int_lt_eq
        (lex_le_antisymm int_lt_trans int_lt_irrefl int_lt_eq str_le_antisymm)))

instance : IsTotal Row CP.row_le :=
  ⟨fun a b => key_le_total (CP.sort_key a) (CP.sort_key b)⟩

instance : IsTrans Row CP.row_le :=
  ⟨fun a b c h1 h2 => key_le_trans (CP.sort_key a) (CP.sort_key b) (CP.sort_key c) h1 h2⟩

/-! ### Walk lemmas -/

/-- A non-disqualified row whose score is within `1e-5` of the last
displayed score, when it matches, returns the inherited place unchanged. -/
theorem place_loop_tie (t : String) (i : Nat) (last : Rat) (place : Option Nat)
    (r : Row) (rest : List Row)
    (hd : r.disqual.getD false = false)
    (hgt : ¬ (eps < |r.sumRank.getD 0 - last|))
    (hh : CP.name_hit t (CP.norm (r.name.getD "")) = true) :
    CP.place_loop t (r :: rest) i last place = place := by
  have hb : rat_abs_sub_gt (r.sumRank.getD 0) last eps = false := by
    rw [← Bool.not_eq_true, rat_abs_sub_gt_iff]
    exact hgt
  simp [CP.place_loop, hb, hd, hh]

/-- A non-disqualified row whose score differs from the last displayed
score by more than `1e-5`, when it matches, returns the fresh display rank
`rankCounter + 1`. -/
theorem place_loop_new (t : String) (i : Nat) (last : Rat) (place : Option Nat)
    (r : Row) (rest : List Row)
    (hd : r.disqual.getD false = false)
    (hgt : eps < |r.sumRank.getD 0 - last|)
    (hh : CP.name_hit t (CP.norm (r.name.getD "")) = true) :
    CP.place_loop t (r :: rest) i last place = some (i + 1) := by
  have hb : rat_abs_sub_gt (r.sumRank.getD 0) last eps = true :=
    (rat_abs_sub_gt_iff _ _ _).mpr hgt
  simp [CP.place_loop, hb, hd, hh]

/-- A disqualified row that does not match is skipped without touching
any of the walk state. -/
theorem place_loop_skip_disq (t : String) (i : Nat) (last : Rat) (place : Option Nat)
    (r : Row) (rest : List Row)
    (hd : r.disqual.getD false = true)
    (hh : CP.name_hit t (CP.norm (r.name.getD "")) = false) :
    CP.place_loop t (r :: rest) i last place = CP.place_loop t rest i last place := by
  simp [CP.place_loop, hd, hh]

/-- A non-disqualified, non-matching row at a new score level advances the
state: the counter, the last displayed score and the display rank. -/
theorem place_loop_step_new (t : String) (i : Nat) (last : Rat) (place : Option Nat)
    (r : Row) (rest : List Row)
    (hd : r.disqual.getD false = false)
    (hgt : eps < |r.sumRank.getD 0 - last|)
    (hh : CP.name_hit t (CP.norm (r.name.getD "")) = false) :
    CP.place_loop t (r :: rest) i last place =
      CP.place_loop t rest (i + 1) (r.sumRank.getD 0) (some (i + 1)) := by
  have hb : rat_abs_sub_gt (r.sumRank.getD 0) last eps = true :=
    (rat_abs_sub_gt_iff _ _ _).mpr hgt
  simp [CP.place_loop, hb, hd, hh]

/-- When no row of the walked list matches the target, the walk returns
`none`. -/
theorem place_loop_none (t : String) : ∀ (l : List Row) (i : Nat) (last : Rat)
    (place : Option Nat),
    (∀ r ∈ l, CP.name_hit t (CP.norm (r.name.getD "")) = false) →
    CP.place_loop t l i last place = none := by
  intro l
  induction l with
  | nil => intro i last place _; rfl
  | cons r rest ih =>
    intro i last place h
    have hh := h r (List.mem_cons_self r rest)
    simp only [CP.place_loop, hh, Bool.false_eq_true, if_false]
    exact ih _ _ _ (fun x hx => h x (List.mem_cons_of_mem r hx))

/-- Rows with equal sort keys agree on every field the walk reads. -/
theorem sort_key_fields {a b : Row} (h : CP.sort_key a = CP.sort_key b) :
    a.sumRank.getD 0 = b.sumRank.getD 0 ∧
    a.disqual.getD false = b.disqual.getD false ∧
    a.name.getD "" = b.name.getD "" := by
  simp only [CP.sort_key, Prod.mk.injEq] at h
  obtain ⟨h1, h2, _, _, h5⟩ := h
  refine ⟨neg_inj.mp h1, ?_, h5⟩
  cases hda : a.disqual.getD false <;> cases hdb : b.disqual.getD false <;>
    rw [hda, hdb] at h2 <;> simp_all

/-- The walk result depends on the walked rows only through their sort
keys. -/
theorem place_loop_congr (t : String) : ∀ (l1 l2 : List Row),
    l1.map CP.sort_key = l2.map CP.sort_key →
    ∀ (i : Nat) (last : Rat) (place : Option Nat),
    CP.place_loop t l1 i last place = CP.place_loop t l2 i last place := by
  intro l1
  induction l1 with
  | nil =>
    intro l2 h i last place
    cases l2 with
    | nil => rfl
    | cons b bs => simp at h
  | cons a as ih =>
    intro l2 h i last place
    cases l2 with
    | nil => simp at h
    | cons b bs =>
      simp only [List.map_cons, List.cons.injEq] at h
      obtain ⟨hk, ht⟩ := h
      obtain ⟨hs, hd, hn⟩ := sort_key_fields hk
      simp only [CP.place_loop]
      rw [hs, hd, hn, ih bs ht]

/-- A disqualified row never gets a fresh rank: when it matches, the
inherited place is returned, whatever its score. -/
theorem place_loop_disq_hit (t : String) (i : Nat) (last : Rat) (place : Option Nat)
    (r : Row) (rest : List Row)
    (hd : r.disqual.getD false = true)
    (hh : CP.name_hit t (CP.norm (r.name.getD "")) = true) :
    CP.place_loop t (r :: rest) i last place = place := by
  simp [CP.place_loop, hd, hh]

/-- The two textually duplicated walks compute the same function. -/
theorem place_loop_eq (t : String) : ∀ (l : List Row) (i : Nat) (last : Rat)
    (place : Option Nat),
    App.place_loop t l i last place = CP.place_loop t l i last place := by
  intro l
  induction l with
  | nil => intro i last place; rfl
  | cons r rest ih =>
    intro i last place
    have hnorm : App.norm = CP.norm := rfl
    have hhit : App.name_hit = CP.name_hit := rfl
    simp only [App.place_loop, CP.place_loop, hnorm, hhit, ih]

/-! ### The claims -/

/-- C1: for the example rows A(100), B(100), C(90, disqualified), D(80),
all of form 1, `compute_place` with target name `"C"` and form 1 returns
place 1: A opens display rank 1, B ties and keeps it, the disqualified C
inherits the last displayed place 1. -/
theorem c1_example_target_c :
    CP.compute_place
      [{ name := some "A", form := some 1, sumRank := some 100 },
       { name := some "B", form := some 1, sumRank := some 100 },
       { name := some "C", form := some 1, sumRank := some 90, disqual := some true },
       { name := some "D", form := some 1, sumRank := some 80 }] "C" 1 = some 1 := by
  decide

/-- C2: the rank algorithm of `src/app.py` (`_sort_key` plus
`_compute_place`) and the rank algorithm of `src/compute_place.py`
(`sort_key` plus `compute_place`) are extensionally equal: they return the
same result on every row list, target name and target form. -/
theorem c2_copies_agree : ∀ (rows : List Row) (name : String) (form : Int),
    App.compute_place rows name form = CP.compute_place rows name form := by
  intro rows n f
  exact place_loop_eq (CP.norm n)
    (List.insertionSort CP.row_le (List.filter (fun r => r.form == some f) rows))
    0 (-1) none

/-- C3 counterexample: rows at scores 100.000016, 100.000008, 100
(form 1, names a, b, c).  The sorted order is a, b, c; b and c are
consecutive and their scores differ by 8e-6 ≤ 1e-5, yet b displays
place 1 while target c returns place 3, because the walk compares each
score against the last displayed score (100.000016, which is 1.6e-5
away), not against the previous row.  Every gap here (8e-6, 1.6e-5) sits
well away from the 1e-5 threshold, so the IEEE-double comparisons of the
program decide exactly as the exact rationals do: the real
`compute_place` also returns 1 for b and 3 for c on these rows. -/
theorem c3_counterexample :
    ¬ (eps < |q100_000008 - (100:Rat)|) ∧
    List.insertionSort CP.row_le
      (List.filter (fun r => r.form == some 1)
        [{ name := some "a", form := some 1, sumRank := some q100_000016 },
         { name := some "b", form := some 1, sumRank := some q100_000008 },
         { name := some "c", form := some 1, sumRank := some 100 }]) =
      [{ name := some "a", form := some 1, sumRank := some q100_000016 },
       { name := some "b", form := some 1, sumRank := some q100_000008 },
       { name := some "c", form := some 1, sumRank := some 100 }] ∧
    CP.compute_place
      [{ name := some "a", form := some 1, sumRank := some q100_000016 },
       { name := some "b", form := some 1, sumRank := some q100_000008 },
       { name := some "c", form := some 1, sumRank := some 100 }] "b" 1 = some 1 ∧
    CP.compute_place
      [{ name := some "a", form := some 1, sumRank := some q100_000016 },
       { name := some "b", form := some 1, sumRank := some q100_000008 },
       { name := some "c", form := some 1, sumRank := some 100 }] "c" 1 = some 3 := by
  refine ⟨?_, by decide, by decide, by decide⟩
  rw [← rat_abs_sub_gt_iff]
  decide

/-- C3 (amended): the comparison is against the last displayed score, not
the previous row.  A non-disqualified row that ties with the last
displayed score under the walk's epsilon test (absolute difference not
above 1e-5, in the exact arithmetic of this model) inherits the current
display rank; a non-disqualified row whose score differs from the last
displayed score by more than 1e-5 receives rank counter + 1; and a target
matched on the second of two consecutive rows returns the place the first
displayed, provided the first row itself displayed a new rank and the
second row ties with the first's score under the same test. -/
theorem c3_amended_display_rank :
    (∀ (t : String) (i : Nat) (last : Rat) (place : Option Nat) (r : Row)
        (rest : List Row),
      r.disqual.getD false = false →
      ¬ (eps < |r.sumRank.getD 0 - last|) →
      CP.name_hit t (CP.norm (r.name.getD "")) = true →
      CP.place_loop t (r :: rest) i last place = place)
    ∧ (∀ (t : String) (i : Nat) (last : Rat) (place : Option Nat) (r : Row)
        (rest : List Row),
      r.disqual.getD false = false →
      eps < |r.sumRank.getD 0 - last| →
      CP.name_hit t (CP.norm (r.name.getD "")) = true →
      CP.place_loop t (r :: rest) i last place = some (i + 1))
    ∧ (∀ (t : String) (i : Nat) (last : Rat) (place : Option Nat) (r1 r2 : Row)
        (rest : List Row),
      r1.disqual.getD false = false →
      eps < |r1.sumRank.getD 0 - last| →
      CP.name_hit t (CP.norm (r1.name.getD "")) = false →
      ¬ (eps < |r2.sumRank.getD 0 - r1.sumRank.getD 0|) →
      CP.name_hit t (CP.norm (r2.name.getD "")) = true →
      CP.place_loop t (r1 :: r2 :: rest) i last place = some (i + 1)) := by
  refine ⟨?_, ?_, ?_⟩
  · intro t i last place r rest hd hgt hh
    exact place_loop_tie t i last place r rest hd hgt hh
  · intro t i last place r rest hd hgt hh
    exact place_loop_new t i last place r rest hd hgt hh
  · intro t i last place r1 r2 rest hd1 hgt1 hh1 htie hh2
    rw [place_loop_step_new t i last place r1 (r2 :: rest) hd1 hgt1 hh1]
    cases hd2 : r2.disqual.getD false with
    | true => exact place_loop_disq_hit t (i + 1) _ _ r2 rest hd2 hh2
    | false => exact place_loop_tie t (i + 1) _ _ r2 rest hd2 htie hh2

/-- Witness for C3 (amended), first conjunct at a concrete input: a row at
score 100 matching the target, with last displayed score 100, inherits the
current place 2. -/
theorem c3_amended_witness :
    CP.place_loop "x" [{ name := some "x", form := some 1, sumRank := some 100 }]
      3 100 (some 2) = some 2 :=
  c3_amended_display_rank.1 "x" 3 100 (some 2)
    { name := some "x", form := some 1, sumRank := some 100 } []
    (by decide)
    (by rw [← rat_abs_sub_gt_iff]; decide)
    (by decide)

/-- C4 counterexample: the sentinel −1 is not distinct from every real
score.  A single non-disqualified row with real score −1 collides with the
initial `last_non_disqual_sum_rank = -1`, so the first non-disqualified
row does not trigger display rank 1: the target returns no place at all. -/
theorem c4_counterexample :
    CP.compute_place
      [{ name := some "a", form := some 1, sumRank := some (-1) }] "a" 1 = none ∧
    CP.compute_place
      [{ name := some "a", form := some 1, sumRank := some (-1) }] "a" 1 ≠ some 1 := by
  exact ⟨by decide, by decide⟩

/-- C4 (amended): scores within 1e-5 of −1 collide with the sentinel; for
every walked list whose leading rows are all disqualified and do not match,
the first non-disqualified row triggers display rank 1 provided its
sumRank differs from −1 by more than 1e-5 (in particular, for every
nonnegative score). -/
theorem c4_amended_first_rank_one :
    ∀ (t : String) (pre : List Row) (r : Row) (rest : List Row),
    (∀ p ∈ pre, p.disqual.getD false = true) →
    (∀ p ∈ pre, CP.name_hit t (CP.norm (p.name.getD "")) = false) →
    r.disqual.getD false = false →
    eps < |r.sumRank.getD 0 - (-1)| →
    CP.name_hit t (CP.norm (r.name.getD "")) = true →
    CP.place_loop t (pre ++ r :: rest) 0 (-1) none = some 1 := by
  intro t pre
  induction pre with
  | nil =>
    intro r rest _ _ hd hgt hh
    exact place_loop_new t 0 (-1) none r rest hd hgt hh
  | cons p ps ih =>
    intro r rest hdisq hnohit hd hgt hh
    rw [List.cons_append,
      place_loop_skip_disq t 0 (-1) none p (ps ++ r :: rest)
        (hdisq p (List.mem_cons_self p ps)) (hnohit p (List.mem_cons_self p ps))]
    exact ih r rest (fun x hx => hdisq x (List.mem_cons_of_mem p hx))
      (fun x hx => hnohit x (List.mem_cons_of_mem p hx)) hd hgt hh

/-- Witness for C4 (amended): one disqualified non-matching row followed by
a matching non-disqualified row at score 100 yields place 1. -/
theorem c4_amended_witness :
    CP.place_loop "a"
      ([{ name := some "z", form := some 1, sumRank := some 50, disqual := some true }]
        ++ [{ name := some "a", form := some 1, sumRank := some 100 }])
      0 (-1) none = some 1 :=
  c4_amended_first_rank_one "a"
    [{ name := some "z", form := some 1, sumRank := some 50, disqual := some true }]
    { name := some "a", form := some 1, sumRank := some 100 } []
    (by decide) (by decide) (by decide)
    (by rw [← rat_abs_sub_gt_iff]; decide) (by decide)

/-- C5: the name test used by the walk compares the normalized row name
against the normalized target, accepting equality or the target followed
by a space; the Cyrillic examples and the `"Ann"`/`"Anna"` example behave
as the specification states, both at the level of `name_hit` and through
`compute_place`. -/
theorem c5_name_matching :
    (∀ (n rn : String), CP.name_hit (CP.norm n) (CP.norm rn) =
      ((CP.norm rn == CP.norm n) ||
        starts_with (CP.norm rn).data ((CP.norm n ++ " ")).data))
    ∧ CP.norm "  Иванов   Иван  " = "иванов иван"
    ∧ CP.norm "иванов иван" = "иванов иван"
    ∧ CP.name_hit (CP.norm "иванов иван") (CP.norm "  Иванов   Иван  ") = true
    ∧ CP.name_hit (CP.norm "иванов иван") (CP.norm "Иванов Иван Петрович") = true
    ∧ CP.name_hit (CP.norm "иванов иван") (CP.norm "Иванова Ивана") = false
    ∧ CP.name_hit (CP.norm "Ann") (CP.norm "Anna") = false
    ∧ CP.compute_place
        [{ name := some "  Иванов   Иван  ", form := some 1, sumRank := some 100 }]
        "иванов иван" 1 = some 1
    ∧ CP.compute_place
        [{ name := some "Иванов Иван Петрович", form := some 1, sumRank := some 100 }]
        "иванов иван" 1 = some 1
    ∧ CP.compute_place
        [{ name := some "Иванова Ивана", form := some 1, sumRank := some 100 }]
        "иванов иван" 1 = none :=
  ⟨fun _ _ => rfl, by decide, by decide, by decide, by decide, by decide,
    by decide, by decide, by decide, by decide⟩

/-- C6: ranking is per cohort.  Inserting (equivalently, removing) a block
of records whose `form` field differs from the target form — including
records with no `form` field — leaves the result of `compute_place`
unchanged. -/
theorem c6_cohort_independence : ∀ (l1 l2 extra : List Row) (n : String) (f : Int),
    (∀ r ∈ extra, r.form ≠ some f) →
    CP.compute_place (l1 ++ extra ++ l2) n f = CP.compute_place (l1 ++ l2) n f := by
  intro l1 l2 extra n f h
  have hx : List.filter (fun r => r.form == some f) extra = [] := by
    rw [List.filter_eq_nil_iff]
    intro a ha
    simp only [beq_iff_eq]
    exact h a ha
  unfold CP.compute_place
  rw [List.filter_append, List.filter_append, hx, List.append_nil,
    ← List.filter_append]

/-- Witness for C6: a form-2 record inserted between two form-1 records
does not change the place of the target. -/
theorem c6_witness :
    CP.compute_place
      ([{ name := some "a", form := some 1, sumRank := some 100 }]
        ++ [{ name := some "z", form := some 2, sumRank := some 500 }]
        ++ [{ name := some "b", form := some 1, sumRank := some 90 }]) "b" 1 =
    CP.compute_place
      ([{ name := some "a", form := some 1, sumRank := some 100 }]
        ++ [{ name := some "b", form := some 1, sumRank := some 90 }]) "b" 1 :=
  c6_cohort_independence
    [{ name := some "a", form := some 1, sumRank := some 100 }]
    [{ name := some "b", form := some 1, sumRank := some 90 }]
    [{ name := some "z", form := some 2, sumRank := some 500 }]
    "b" 1 (by decide)

/-- C7 counterexample: a row with no `form` field is not defaulted to
cohort −1 by the filter: with target form −1 it is invisible, while the
same row with an explicit `form = -1` is found with place 1. -/
theorem c7_counterexample :
    CP.compute_place [{ name := some "x", sumRank := some 100 }] "x" (-1) = none ∧
    CP.compute_place [{ name := some "x", form := some (-1), sumRank := some 100 }]
      "x" (-1) = some 1 := by
  exact ⟨by decide, by decide⟩

/-- C7 (amended): the defaults `sumRank=0`, `disqual=false`,
`automatic=false`, `form=−1`, `name=""` apply inside the sort key (and the
walk), and no row is ever rejected from those stages; but the cohort
filter compares the raw `form` field with no default, so a row missing
`form` belongs to no cohort: it never affects the result, for any target
form — including −1. -/
theorem c7_amended_defaults :
    CP.sort_key ({ } : Row) = CP.sort_key
      ({ name := some "", form := some (-1), sumRank := some 0,
              disqual := some false, automatic := some false } : Row)
    ∧ (∀ (rows : List Row) (n : String) (f : Int) (r : Row), r.form = none →
      CP.compute_place (r :: rows) n f = CP.compute_place rows n f) := by
  refine ⟨by decide, ?_⟩
  intro rows n f r hr
  unfold CP.compute_place
  have : List.filter (fun x => x.form == some f) (r :: rows) =
      List.filter (fun x => x.form == some f) rows := by
    rw [List.filter_cons_of_neg]
    simp [hr]
  rw [this]

/-- Witness for C7 (amended): prepending a row with no `form` field leaves
the result unchanged. -/
theorem c7_amended_witness :
    CP.compute_place [{ name := some "x", sumRank := some 100 }] "x" (-1) =
    CP.compute_place [] "x" (-1) :=
  c7_amended_defaults.2 [] "x" (-1) { name := some "x", sumRank := some 100 } rfl

/-- C8: when no row both carries the target form and matches the target
name, `compute_place` returns `none`; in particular this holds whenever no
row's form equals the target form. -/
theorem c8_not_found : ∀ (rows : List Row) (n : String) (f : Int),
    (∀ r ∈ rows, r.form = some f →
      CP.name_hit (CP.norm n) (CP.norm (r.name.getD "")) = false) →
    CP.compute_place rows n f = none := by
  intro rows n f h
  unfold CP.compute_place
  apply place_loop_none
  intro r hr
  have hr2 : r ∈ List.filter (fun x => x.form == some f) rows :=
    (List.perm_insertionSort CP.row_le _).mem_iff.mp hr
  rw [List.mem_filter] at hr2
  exact h r hr2.1 (by simpa [beq_iff_eq] using hr2.2)

/-- Witness for C8: a single form-1 row named bob is not found when the
target is alice. -/
theorem c8_witness :
    CP.compute_place [{ name := some "bob", form := some 1, sumRank := some 100 }]
      "alice" 1 = none :=
  c8_not_found [{ name := some "bob", form := some 1, sumRank := some 100 }]
    "alice" 1 (by decide)

/-- C9: when the cache is stale (no cached data, or the TTL window has
passed) and the refresh outcome is a failure (network error or a JSON body
that is not a list), `_fetch_data` propagates an error (no `ok` result)
and leaves the cache record — both `fetched_at` and `data` — exactly as it
was. -/
theorem c9_failed_refresh_keeps_cache : ∀ (c : App.Cache) (now ttl : Rat)
    (outcome : App.FetchOutcome),
    (c.data = none ∨ ¬ (now - c.fetched_at < ttl)) →
    (outcome = App.FetchOutcome.net_error ∨ outcome = App.FetchOutcome.non_list) →
    (App.fetch_data c now ttl outcome).1.isOk = false ∧
      (App.fetch_data c now ttl outcome).2 = c := by
  intro c now ttl outcome hstale hfail
  have hfresh : (App.fetch_fresh c now outcome).1.isOk = false ∧
      (App.fetch_fresh c now outcome).2 = c := by
    rcases hfail with h | h <;> subst h <;> exact ⟨rfl, rfl⟩
  unfold App.fetch_data
  rcases hc : c.data with _ | d
  · exact hfresh
  · rcases hstale with h | h
    · rw [hc] at h
      cases h
    · have hb : rat_lt (now - c.fetched_at) ttl = false := by
        rw [← Bool.not_eq_true, rat_lt_iff]
        exact h
      rw [hb]
      simp only [Bool.false_eq_true, if_false]
      exact hfresh

/-- Witness for C9: an empty cache with a failing network call returns an
error and keeps the empty cache. -/
theorem c9_witness :
    (App.fetch_data { fetched_at := 0, data := none } 0 30
      App.FetchOutcome.net_error).1.isOk = false ∧
    (App.fetch_data { fetched_at := 0, data := none } 0 30
      App.FetchOutcome.net_error).2 = { fetched_at := 0, data := none } :=
  c9_failed_refresh_keeps_cache { fetched_at := 0, data := none } 0 30
    App.FetchOutcome.net_error (Or.inl rfl) (Or.inl rfl)

/-- C10: `compute_place` is invariant under permutation of its input list:
the composite sort key determines every field the walk and the name match
read, so any two stably sorted permutations walk the same key sequence. -/
theorem c10_permutation_invariant : ∀ (l1 l2 : List Row) (n : String) (f : Int),
    l1.Perm l2 → CP.compute_place l1 n f = CP.compute_place l2 n f := by
  intro l1 l2 n f h
  unfold CP.compute_place
  apply place_loop_congr
  have hp : (List.filter (fun r => r.form == some f) l1).Perm
      (List.filter (fun r => r.form == some f) l2) := h.filter _
  have hp2 : (List.insertionSort CP.row_le (List.filter (fun r => r.form == some f) l1)).Perm
      (List.insertionSort CP.row_le (List.filter (fun r => r.form == some f) l2)) :=
    ((List.perm_insertionSort CP.row_le _).trans hp).trans
      (List.perm_insertionSort CP.row_le _).symm
  have hm := hp2.map CP.sort_key
  have hs1 : List.Sorted CP.row_le
      (List.insertionSort CP.row_le (List.filter (fun r => r.form == some f) l1)) :=
    List.sorted_insertionSort CP.row_le _
  have hs2 : List.Sorted CP.row_le
      (List.insertionSort CP.row_le (List.filter (fun r => r.form == some f) l2)) :=
    List.sorted_insertionSort CP.row_le _
  have hms1 : List.Pairwise (fun k1 k2 : SortKey => key_le k1 k2 = true)
      (List.map CP.sort_key
        (List.insertionSort CP.row_le (List.filter (fun r => r.form == some f) l1))) :=
    List.pairwise_map.mpr hs1
  have hms2 : List.Pairwise (fun k1 k2 : SortKey => key_le k1 k2 = true)
      (List.map CP.sort_key
        (List.insertionSort CP.row_le (List.filter (fun r => r.form == some f) l2))) :=
    List.pairwise_map.mpr hs2
  exact @List.eq_of_perm_of_sorted SortKey (fun k1 k2 => key_le k1 k2 = true)
    ⟨fun k1 k2 ha hb => key_le_antisymm k1 k2 ha hb⟩ _ _ hm hms1 hms2

/-- Witness for C10: swapping two rows does not change the result. -/
theorem c10_witness :
    CP.compute_place
      [{ name := some "a", form := some 1, sumRank := some 90 },
       { name := some "b", form := some 1, sumRank := some 100 }] "a" 1 =
    CP.compute_place
      [{ name := some "b", form := some 1, sumRank := some 100 },
       { name := some "a", form := some 1, sumRank := some 90 }] "a" 1 :=
  c10_permutation_invariant _ _ "a" 1
    (List.Perm.swap ({ name := some "b", form := some 1, sumRank := some 100 } : Row)
      ({ name := some "a", form := some 1, sumRank := some 90 } : Row) [])
